import Mathlib

set_option maxRecDepth 8000
set_option maxHeartbeats 1000000

/-!
Verification development for the paceCParser repository (src/parser.py).

The Python source is shallowly embedded below.  Python strings are modelled as
Lean `String` values (lists of characters); functions that can raise an
uncaught exception are modelled with `Option`, where `none` stands for the
exception escaping the call.  Character classes used by Python's `re` module
and by `str.strip`/`str.split`/`str.splitlines` are reproduced over the code
points CPython treats as whitespace / word characters (ASCII plus the Unicode
whitespace code points CPython recognises).
-/

namespace PaceC

/-- Whitespace predicate shared by Python's `str.strip`, `str.isspace` and the
regex class `\s` (CPython's `Py_UNICODE_ISSPACE` set). -/
def isPyWS (c : Char) : Bool :=
  let n := c.toNat
  (0x09 ≤ n && n ≤ 0x0d) || n == 0x20 || (0x1c ≤ n && n ≤ 0x1f) || n == 0x85 ||
    n == 0xa0 || n == 0x1680 || (0x2000 ≤ n && n ≤ 0x200a) || n == 0x2028 ||
    n == 0x2029 || n == 0x202f || n == 0x205f || n == 0x3000

/-- Line boundary predicate of Python's `str.splitlines`. -/
def isLineBreak (c : Char) : Bool :=
  let n := c.toNat
  (0x0a ≤ n && n ≤ 0x0d) || (0x1c ≤ n && n ≤ 0x1e) || n == 0x85 ||
    n == 0x2028 || n == 0x2029

/-- Regex class `\w` (the source only feeds ASCII text to it). -/
def isWordChar (c : Char) : Bool := c.isAlphanum || c == '_'

/-- Regex class `[\w*]` used by the declaration pattern of
`extract_function_variables` (src/parser.py line 218). -/
def isWordStar (c : Char) : Bool := isWordChar c || c == '*'

/-- Regex class `[a-zA-Z_]` (identifier start in the call pattern,
src/parser.py line 232). -/
def isIdentStart (c : Char) : Bool := c.isAlpha || c == '_'

/-- Regex class `[a-zA-Z0-9_]` (identifier continuation, line 232). -/
def isIdentChar (c : Char) : Bool := c.isAlphanum || c == '_'

/-- Python `str.split(sep)` for a one-character separator: every occurrence
separates, empty pieces are kept, and the empty string yields `[""]`. -/
def pySplitChar (sep : Char) : List Char → List (List Char)
  | [] => [[]]
  | c :: cs =>
      if c == sep then [] :: pySplitChar sep cs
      else
        match pySplitChar sep cs with
        | [] => [[c]]
        | p :: ps => (c :: p) :: ps

/-- Join pieces with a separator list (inverse of `pySplitChar`). -/
def joinWith (sep : List Char) : List (List Char) → List Char
  | [] => []
  | [x] => x
  | x :: y :: xs => x ++ sep ++ joinWith sep (y :: xs)

/-- Drop leading Python whitespace. -/
def dropWS (l : List Char) : List Char := l.dropWhile isPyWS

/-- Python `str.strip()` on character lists. -/
def pyStripL (l : List Char) : List Char := ((dropWS l).reverse.dropWhile isPyWS).reverse

/-- Python `str.strip()`. -/
def pyStrip (s : String) : String := ⟨pyStripL s.data⟩

/-- Python `str.lstrip()`; used to state the spec's "allowing leading
whitespace" side condition. -/
def pyLstrip (s : String) : String := ⟨s.data.dropWhile isPyWS⟩

/-- Remove every whitespace character; the whitespace normalisation used to
state the round-trip law. -/
def eraseWS (l : List Char) : List Char := l.filter (fun c => !isPyWS c)

/-- Python `str.splitlines` worker: `acc` holds the current line reversed. -/
def splitlinesAux : List Char → List Char → List (List Char)
  | [], acc => if acc.isEmpty then [] else [acc.reverse]
  | '\x0d' :: '\x0a' :: rest, acc => acc.reverse :: splitlinesAux rest []
  | c :: rest, acc =>
      if isLineBreak c then acc.reverse :: splitlinesAux rest []
      else splitlinesAux rest (c :: acc)

/-- Python `str.splitlines()` (no trailing empty line for a trailing
terminator, `\r\n` counts as a single boundary). -/
def splitlines (s : String) : List String := (splitlinesAux s.data []).map (fun l => ⟨l⟩)

/-- `Option`-valued map over a list that aborts at the first failure; models a
Python loop whose body may raise an exception. -/
def mapMOpt {α β : Type} (f : α → Option β) : List α → Option (List β)
  | [] => some []
  | a :: as =>
      match f a with
      | none => none
      | some b =>
          match mapMOpt f as with
          | none => none
          | some bs => some (b :: bs)

/-- Remove `pre` from the front of `l` when it is literally there. -/
def stripPrefixL : List Char → List Char → Option (List Char)
  | [], l => some l
  | _ :: _, [] => none
  | p :: ps, c :: cs => if p == c then stripPrefixL ps cs else none

/-- First hit of an `Option`-valued function over a list. -/
def firstSome {α β : Type} (f : α → Option β) : List α → Option β
  | [] => none
  | a :: as =>
      match f a with
      | some b => some b
      | none => firstSome f as

/-- All suffixes reachable by consuming `\s*` (zero or more whitespace
characters) from the front of `l`; the regex can stop inside a run, so all
stop points are listed. -/
def wsTakes : List Char → List (List Char)
  | [] => [[]]
  | c :: cs => (c :: cs) :: (if isPyWS c then wsTakes cs else [])

/-- All suffixes reachable by consuming `\s+` (one or more whitespace
characters) from the front of `l`. -/
def wsTakes1 : List Char → List (List Char)
  | [] => []
  | c :: cs => if isPyWS c then wsTakes cs else []

/-- The `Variable` dataclass (src/parser.py lines 8-12).  The running code
only ever stores `None` or a string in `value` (the function-call branch
crashes before storing anything), so `value` is modelled as `Option String`. -/
structure Variable where
  data_type : String
  name : String
  value : Option String
deriving DecidableEq, Repr

/-- The `Function` dataclass (src/parser.py lines 15-19). -/
structure Function where
  return_type : String
  function_name : String
  parameters : List Variable
deriving DecidableEq, Repr

/-- The body of one `extract_function_parameters` loop iteration once
`param.split(' ')` produced exactly the two parts `t` and `n` (src/parser.py
lines 99-103): a leading `*` on the name is moved onto the type.  The `[]`
case mirrors the `IndexError` Python would raise on `param_name[0]`
(unreachable for stripped input, kept for totality). -/
def parseTwo (t : List Char) : List Char → Option Variable
  | [] => none
  | c :: cs => if c == '*' then some ⟨⟨t ++ ['*']⟩, ⟨cs⟩, none⟩ else some ⟨⟨t⟩, ⟨c :: cs⟩, none⟩

/-- One loop iteration of `extract_function_parameters` (src/parser.py lines
98-104) on an already stripped piece: `param.split(' ')` must produce exactly
two parts, otherwise the tuple unpacking raises `ValueError`, modelled as
`none`. -/
def parsePiece (piece : List Char) : Option Variable :=
  match pySplitChar ' ' piece with
  | [t, n] => parseTwo t n
  | _ => none

/-- Core of `extract_function_parameters` (src/parser.py lines 91-106) on a
character list: empty input short-circuits to `[]`; otherwise split on commas,
strip each piece and parse it; a `ValueError` anywhere aborts the whole call
(`none`), so no partial list is ever produced. -/
def extract_function_parameters_core (l : List Char) : Option (List Variable) :=
  if l.isEmpty then some []
  else mapMOpt (fun piece => parsePiece (pyStripL piece)) (pySplitChar ',' l)

/-- `extract_function_parameters` (src/parser.py lines 91-106). -/
def extract_function_parameters (parameters : String) : Option (List Variable) :=
  extract_function_parameters_core parameters.data

/-- The parameter serialisation `', '.join(f"{param.data_type} {param.name}")`
used by `get_function_contents` (src/parser.py line 175). -/
def param_str_of (ps : List Variable) : List Char :=
  joinWith (", ".data) (ps.map (fun p => p.data_type.data ++ ' ' :: p.name.data))

/-- Modelled from the spec: the "exact canonical serialization
`<return_type> <name>(<type name, comma-joined>) {`" that section 4.4 says a
source line must equal for the Body Extractor to find it. -/
def canonicalHeader (f : Function) : String :=
  ⟨f.return_type.data ++ ' ' :: f.function_name.data ++
    '(' :: param_str_of f.parameters ++ [')', ' ', '\x7b']⟩

/-- End of the header regex: `\s*\{` (trailing text after the brace is
allowed, since `re.match` only anchors the start). -/
def hmBrace (l7 : List Char) : Bool := (wsTakes l7).any (fun l8 => l8.headD ' ' == '\x7b')

/-- The interpolated parameter text followed by the literal `\)` and
`hmBrace`. -/
def hmClose (ps l6 : List Char) : Bool :=
  match stripPrefixL ps l6 with
  | some (')' :: l7) => hmBrace l7
  | _ => false

/-- Innermost part of the header regex: the literal `\(` then `hmClose`. -/
def hmParen (ps l5 : List Char) : Bool :=
  match l5 with
  | '(' :: l6 => hmClose ps l6
  | _ => false

/-- Tail of the header regex after the name: `\s*\(<params>\)\s*\{`.  The
interpolated parameter string is treated as literal text (the theorems about
the extractor restrict signature fields to regex-metacharacter-free strings,
see `sigRegexSafe`). -/
def hmAfterName (ps l : List Char) : Bool := (wsTakes l).any (hmParen ps)

/-- The literal function name followed by `hmAfterName`. -/
def hmName (nm ps l3 : List Char) : Bool :=
  match stripPrefixL nm l3 with
  | some l4 => hmAfterName ps l4
  | none => false

/-- Middle of the header regex: `\s+` then the name part. -/
def hmAfterType (nm ps l : List Char) : Bool := (wsTakes1 l).any (hmName nm ps)

/-- The literal return type followed by `hmAfterType`. -/
def hmType (rt nm ps l1 : List Char) : Bool :=
  match stripPrefixL rt l1 with
  | some l2 => hmAfterType nm ps l2
  | none => false

/-- The compiled pattern `^\s*{return_type}\s+{func_name}\s*\({param_str}\)\s*\{`
of `get_function_contents` (src/parser.py line 178), applied with `re.match`:
anchored at the line start, arbitrary text may follow the opening brace.  The
three interpolated fields are matched as literal text. -/
def headerMatch (rt nm ps line : List Char) : Bool :=
  (wsTakes line).any (hmType rt nm ps)

/-- Signature fields that contain no regex metacharacters, so that
interpolating them into the pattern of src/parser.py line 178 matches them
literally; the faithfulness of `headerMatch` is stated under this guard. -/
def regexLiteralChar (c : Char) : Bool := c.isAlphanum || c == '_' || c == ' ' || c == ','

/-- All three interpolated fields of the header pattern are regex-literal. -/
def sigRegexSafe (f : Function) : Bool :=
  f.return_type.data.all regexLiteralChar && f.function_name.data.all regexLiteralChar &&
    (param_str_of f.parameters).all regexLiteralChar

/-- Whether a given source line matches the header pattern built from `f`
(src/parser.py line 188). -/
def sigMatchLine (f : Function) (line : String) : Bool :=
  headerMatch f.return_type.data f.function_name.data (param_str_of f.parameters) line.data

/-- The per-character brace counting of src/parser.py lines 198-202, starting
from the running count `b`. -/
def countBraces (b : Int) (l : List Char) : Int :=
  l.foldl (fun a c => if c == '\x7b' then a + 1 else if c == '\x7d' then a - 1 else a) b

/-- Net brace depth change contributed by one line. -/
def braceDelta (line : String) : Int := countBraces 0 line.data

/-- Sum of the brace depth changes of a list of lines. -/
def braceSum (lines : List String) : Int := (lines.map braceDelta).foldr (· + ·) 0

/-- Loop state of `get_function_contents` (src/parser.py lines 180-183). -/
structure GfcState where
  found : Bool
  inside : Bool
  brace : Int
  body : List String
deriving DecidableEq, Repr

/-- The scanning loop of `get_function_contents` (src/parser.py lines
185-208): while not inside, a matching line starts the capture with depth 1
(the header's own characters are not counted) and `continue`s; while inside,
braces are counted per character, the stripped line is stored, and depth
exactly zero breaks out of the loop. -/
def gfcGo (pat : String → Bool) : List String → GfcState → GfcState
  | [], st => st
  | line :: rest, st =>
      if st.inside then
        if countBraces st.brace line.data == 0 then
          ⟨st.found, false, countBraces st.brace line.data, st.body ++ [pyStrip line]⟩
        else gfcGo pat rest ⟨st.found, true, countBraces st.brace line.data, st.body ++ [pyStrip line]⟩
      else
        if pat line then gfcGo pat rest ⟨true, true, 1, st.body ++ [pyStrip line]⟩
        else gfcGo pat rest st

/-- The return step of `get_function_contents` (src/parser.py lines 210-213):
`None` when the header was never found, otherwise
`list(filter(None, function_body[1:-1]))`. -/
def gfcResult (st : GfcState) : Option (List String) :=
  if st.found then some (((st.body.drop 1).dropLast).filter (fun s => s != "")) else none

/-- `get_function_contents` (src/parser.py lines 168-213): scan the lines of
`content` with the serialized header pattern; `None` (here `none`) exactly
when no line ever matched, otherwise the collected lines minus the first and
last, with empty strings filtered out. -/
def get_function_contents (content : String) (function : Function) : Option (List String) :=
  gfcResult (gfcGo (sigMatchLine function) (splitlines content) ⟨false, false, 0, []⟩)

/-- Split the text before the `(` into return type and name, reproducing the
unique way `^(\S+(?:\s+\S+)*)\s+(\w+)\s*$` can match it: the trailing `\s*`
must take the maximal whitespace suffix (a `\w` name cannot end in
whitespace), the name the maximal word-character run before it (it is
delimited by the mandatory `\s+`), the `\s+` the maximal whitespace run (the
first group cannot end in whitespace), and the remainder is the first group,
whose language `\S+(?:\s+\S+)*` is exactly the nonempty strings that neither
start nor end with whitespace. -/
def sigNameSplit (pre : List Char) : Option (List Char × List Char) :=
  let r := pre.reverse
  let r1 := r.dropWhile isPyWS
  let b := r1.takeWhile isWordChar
  let r2 := r1.dropWhile isWordChar
  let w := r2.takeWhile isPyWS
  let a := r2.dropWhile isPyWS
  if b.isEmpty || w.isEmpty || a.isEmpty || isPyWS (a.getLastD ' ') then none
  else some (a.reverse, b.reverse)

/-- Candidate positions of the `\(` of the declaration pattern: a `(` whose
following characters up to the final `)` contain no `)` (the parameter group
is `[^)]*` and `\)$` is anchored at the end).  Listed right-to-left, matching
the backtracking preference of the greedy leading group. -/
def parenCandidates (l : List Char) : List Nat :=
  ((List.range l.length).filter
    (fun m => l.getD m ' ' == '(' && ((l.drop (m + 1)).dropLast.all (fun c => c != ')')))).reverse

/-- `re.match` of `^(\S+(?:\s+\S+)*)\s+(\w+)\s*\(([^)]*)\)$` (src/parser.py
line 111) returning the three groups. -/
def pyFuncDeclRegex (l : List Char) : Option (List Char × List Char × List Char) :=
  if l.getLastD ' ' == ')' then
    firstSome
      (fun m =>
        match sigNameSplit (l.take m) with
        | some (a, b) => some (a, b, (l.drop (m + 1)).dropLast)
        | none => none)
      (parenCandidates l)
  else none

/-- `format_func_declar` (src/parser.py lines 110-128).  The outer `Option`
models an uncaught exception (a `ValueError` escaping from
`extract_function_parameters`); the inner `Option` is the function's own
`None` result when the regex does not match.  The pointer-sigil branch of
lines 121-123 is reproduced verbatim (the name group is `\w+`, so it can in
fact never start with `*`). -/
def format_func_declar (func_str : String) : Option (Option Function) :=
  match pyFuncDeclRegex func_str.data with
  | none => some none
  | some (rt0, nm0, ps) =>
      let rt := if nm0.headD ' ' == '*' then rt0 ++ ['*'] else rt0
      let nm := if nm0.headD ' ' == '*' then nm0.drop 1 else nm0
      match extract_function_parameters_core ps with
      | none => none
      | some params => some (some ⟨⟨rt⟩, ⟨nm⟩, params⟩)

/-- The alternation `(int|float|char|double|long|short|unsigned|signed|void)`
of the declaration pattern (src/parser.py line 218), in source order; the
alternatives are pairwise prefix-free, so at most one can match. -/
def primKeywords : List (List Char) :=
  ["int", "float", "char", "double", "long", "short", "unsigned", "signed", "void"].map String.data

/-- Match one keyword of the alternation as a literal prefix. -/
def matchKeyword (l : List Char) : Option (List Char × List Char) :=
  firstSome
    (fun kw =>
      match stripPrefixL kw l with
      | some rest => some (kw, rest)
      | none => none)
    primKeywords

/-- Tail of the declaration pattern after the `[\w*]+` name: the optional
group `(\s*=\s*([^;]+))?` followed by `\s*;`.  `nmTok` is the captured name,
`l3` the remaining input.  With a `;` present, `\s*([^;]+)` matched greedily
always extends the capture to the character just before the first `;`, so the
raw third group is the leading whitespace, the `=`, plus everything up to
(excluding) that first `;`. -/
def declAfterName (kw nmTok l3 : List Char) : Option (List Char × List Char × Option (List Char)) :=
  if nmTok.isEmpty then none
  else
    let ws0 := l3.takeWhile isPyWS
    let l4 := l3.dropWhile isPyWS
    match l4 with
    | ';' :: _ => some (kw, nmTok, none)
    | '=' :: l5 =>
        let k := (l5.takeWhile (fun c2 => c2 != ';')).length
        if l5.any (fun c2 => c2 == ';') && 1 ≤ k then
          some (kw, nmTok, some (ws0 ++ '=' :: l5.take k))
        else none
    | _ => none

/-- Middle of the declaration pattern after the type keyword: `\s+` (at least
one whitespace character) then the maximal `[\w*]+` run as the name. -/
def declAfterKw (kw l1 : List Char) : Option (List Char × List Char × Option (List Char)) :=
  match l1 with
  | [] => none
  | c :: _ =>
      if isPyWS c then
        let l2 := l1.dropWhile isPyWS
        declAfterName kw (l2.takeWhile isWordStar) (l2.dropWhile isWordStar)
      else none

/-- `re.match` of the declaration pattern
`^\s*(int|...|void)\s+([\w*]+)(\s*=\s*([^;]+))?\s*;` (src/parser.py line 218),
returning the type keyword, the `[\w*]+` name, and the raw text of the
optional third group.  The greedy quantifiers are deterministic here: every
backtracking opportunity would require a character class to accept a
character it excludes. -/
def declMatch (line : List Char) : Option (List Char × List Char × Option (List Char)) :=
  match matchKeyword (line.dropWhile isPyWS) with
  | none => none
  | some (kw, l1) => declAfterKw kw l1

/-- Python `'...'.split('=')[-1]` applied to the raw third group
(src/parser.py line 230). -/
def lastSplitEq (l : List Char) : List Char := (pySplitChar '=' l).getLastD []

/-- `re.match` of the call pattern `^\s*([a-zA-Z_][a-zA-Z0-9_]*)\s*\([^)]*\)\s*`
(src/parser.py line 232) viewed as a Boolean test. -/
def callExprMatch (v : List Char) : Bool :=
  let l := v.dropWhile isPyWS
  match l with
  | c :: _ =>
      isIdentStart c &&
        (match (l.dropWhile isIdentChar).dropWhile isPyWS with
         | '(' :: r => r.any (fun c2 => c2 == ')')
         | _ => false)
  | [] => false

/-- `extract_function_variables` (src/parser.py lines 217-242).  Lines that do
not match the declaration pattern are skipped; a matched line with an
initializer takes the text after the last `=`, stripped, as the value.  When
that value matches the call pattern the code executes `match.group(2)` on a
one-group regex, raising an uncaught `IndexError`: the whole call aborts,
modelled as `none`. -/
def extract_function_variables (function_contents : List String) : Option (List Variable) :=
  match function_contents with
  | [] => some []
  | line :: rest =>
      match declMatch line.data with
      | none => extract_function_variables rest
      | some (t, n, none) =>
          (extract_function_variables rest).map (fun vs => ⟨⟨t⟩, ⟨n⟩, none⟩ :: vs)
      | some (t, n, some g3) =>
          let v := pyStripL (lastSplitEq g3)
          if callExprMatch v then none
          else (extract_function_variables rest).map (fun vs => ⟨⟨t⟩, ⟨n⟩, some ⟨v⟩⟩ :: vs)

/-- The target signature `int f()` used by the concrete body-extraction
examples. -/
def fInt : Function := ⟨"int", "f", []⟩

/-- The success shape of `parsePiece` on a two-token piece, used to state the
amended single-space parameter rule. -/
def mkPieceVar (t n : List Char) : Variable :=
  if n.headD ' ' == '*' then ⟨⟨t ++ ['*']⟩, ⟨n.drop 1⟩, none⟩ else ⟨⟨t⟩, ⟨n⟩, none⟩

/-! ## Helper lemmas about the string utilities -/

theorem string_ne_nil_data (s : String) (h : s ≠ "") : s.data ≠ [] := by
  intro hd
  apply h
  apply String.ext
  simpa using hd

theorem pySplitChar_ne_nil (sep : Char) (l : List Char) : pySplitChar sep l ≠ [] := by
  induction l with
  | nil => simp [pySplitChar]
  | cons c cs ih =>
    simp only [pySplitChar]
    split
    · simp
    · split <;> simp

theorem joinWith_cons_cons (sep : List Char) (c : Char) (p : List Char) (ps : List (List Char)) :
    joinWith sep ((c :: p) :: ps) = c :: joinWith sep (p :: ps) := by
  cases ps with
  | nil => rfl
  | cons q qs => simp [joinWith]

theorem joinWith_two (sep : List Char) (x y : List Char) (r : List (List Char)) :
    joinWith sep (x :: y :: r) = x ++ sep ++ joinWith sep (y :: r) := rfl

theorem join_pySplitChar (sep : Char) (l : List Char) :
    joinWith [sep] (pySplitChar sep l) = l := by
  induction l with
  | nil => rfl
  | cons c cs ih =>
    simp only [pySplitChar]
    split
    · rename_i h
      have hc : c = sep := by simpa using h
      subst hc
      cases hs : pySplitChar c cs with
      | nil => exact absurd hs (pySplitChar_ne_nil c cs)
      | cons p ps =>
        rw [hs] at ih
        simp [joinWith, ih]
    · rename_i h
      cases hs : pySplitChar sep cs with
      | nil => exact absurd hs (pySplitChar_ne_nil sep cs)
      | cons p ps =>
        rw [hs] at ih
        rw [joinWith_cons_cons, ih]

theorem pySplitChar_two (q t n : List Char) (h : pySplitChar ' ' q = [t, n]) :
    q = t ++ ' ' :: n := by
  have h2 := join_pySplitChar ' ' q
  rw [h] at h2
  simpa [joinWith] using h2.symm

theorem pySplitChar_no_sep (sep : Char) (l : List Char) (h : ∀ c ∈ l, ¬ c = sep) :
    pySplitChar sep l = [l] := by
  induction l with
  | nil => rfl
  | cons c cs ih =>
    have hc : (c == sep) = false := by
      simpa using h c (by simp)
    simp only [pySplitChar, hc, Bool.false_eq_true, if_false]
    rw [ih (fun d hd => h d (by simp [hd]))]

theorem pySplitChar_sep_append (sep : Char) (t rest : List Char) (h : ∀ c ∈ t, ¬ c = sep) :
    pySplitChar sep (t ++ sep :: rest) = t :: pySplitChar sep rest := by
  induction t with
  | nil => simp [pySplitChar]
  | cons c cs ih =>
    have hc : (c == sep) = false := by
      simpa using h c (by simp)
    simp only [List.cons_append, pySplitChar, hc, Bool.false_eq_true, if_false, List.append_eq]
    rw [ih (fun d hd => h d (by simp [hd]))]

theorem parsePiece_eval (q t n : List Char) (h : pySplitChar ' ' q = [t, n]) :
    parsePiece q = parseTwo t n := by
  unfold parsePiece
  rw [h]

theorem eraseWS_append (a b : List Char) : eraseWS (a ++ b) = eraseWS a ++ eraseWS b := by
  simp [eraseWS]

theorem eraseWS_cons_ws (c : Char) (l : List Char) (h : isPyWS c = true) :
    eraseWS (c :: l) = eraseWS l := by
  simp [eraseWS, List.filter_cons, h]

theorem eraseWS_cons_nws (c : Char) (l : List Char) (h : isPyWS c = false) :
    eraseWS (c :: l) = c :: eraseWS l := by
  simp [eraseWS, List.filter_cons, h]

theorem eraseWS_dropWS (l : List Char) : eraseWS (dropWS l) = eraseWS l := by
  induction l with
  | nil => rfl
  | cons c cs ih =>
    cases h : isPyWS c with
    | true =>
      rw [show dropWS (c :: cs) = dropWS cs from by simp [dropWS, List.dropWhile_cons, h]]
      rw [ih, eraseWS_cons_ws c cs h]
    | false =>
      rw [show dropWS (c :: cs) = c :: cs from by simp [dropWS, List.dropWhile_cons, h]]

theorem eraseWS_reverse (l : List Char) : eraseWS l.reverse = (eraseWS l).reverse := by
  simp [eraseWS]

theorem eraseWS_pyStripL (l : List Char) : eraseWS (pyStripL l) = eraseWS l := by
  unfold pyStripL
  rw [show (dropWS l).reverse.dropWhile isPyWS = dropWS ((dropWS l).reverse) from rfl]
  rw [eraseWS_reverse, eraseWS_dropWS, eraseWS_reverse]
  simp [eraseWS_dropWS]

theorem mapMOpt_length {α β : Type} (f : α → Option β) (l : List α) (r : List β)
    (h : mapMOpt f l = some r) : r.length = l.length := by
  induction l generalizing r with
  | nil =>
    simp only [mapMOpt, Option.some.injEq] at h
    subst h
    rfl
  | cons a as ih =>
    simp only [mapMOpt] at h
    cases hf : f a with
    | none => rw [hf] at h; simp at h
    | some b =>
      rw [hf] at h
      cases hr : mapMOpt f as with
      | none => rw [hr] at h; simp at h
      | some bs =>
        rw [hr] at h
        simp only [Option.some.injEq] at h
        subst h
        simp [ih bs hr]

theorem mapMOpt_none_of_mem {α β : Type} (f : α → Option β) (l : List α) (a : α)
    (ha : a ∈ l) (hf : f a = none) : mapMOpt f l = none := by
  induction l with
  | nil => cases ha
  | cons b bs ih =>
    simp only [mapMOpt]
    rcases List.mem_cons.mp ha with rfl | hmem
    · rw [hf]
    · cases hb : f b with
      | none => rfl
      | some c => rw [ih hmem]

/-! ## Helper lemmas about the parameter parser -/

theorem parsePiece_serial (q : List Char) (v : Variable) (h : parsePiece q = some v) :
    eraseWS (v.data_type.data ++ ' ' :: v.name.data) = eraseWS q := by
  cases hsp : pySplitChar ' ' q with
  | nil =>
    have hnone : parsePiece q = none := by unfold parsePiece; rw [hsp]
    rw [hnone] at h
    exact absurd h (by simp)
  | cons t tl =>
    cases tl with
    | nil =>
      have hnone : parsePiece q = none := by unfold parsePiece; rw [hsp]
      rw [hnone] at h
      exact absurd h (by simp)
    | cons n tl2 =>
      cases tl2 with
      | cons m tl3 =>
        have hnone : parsePiece q = none := by unfold parsePiece; rw [hsp]
        rw [hnone] at h
        exact absurd h (by simp)
      | nil =>
        rw [parsePiece_eval q t n hsp] at h
        have hq := pySplitChar_two q t n hsp
        subst hq
        cases n with
        | nil => exact absurd (show (none : Option Variable) = some v from h) (by simp)
        | cons c cs =>
          simp only [parseTwo] at h
          by_cases hc : c = '*'
          · subst hc
            rw [if_pos (show ('*' == '*') = true from rfl)] at h
            simp only [Option.some.injEq] at h
            subst h
            show eraseWS ((t ++ ['*']) ++ ' ' :: cs) = eraseWS (t ++ ' ' :: '*' :: cs)
            rw [List.append_assoc, eraseWS_append,
              show ['*'] ++ ' ' :: cs = '*' :: ' ' :: cs from rfl,
              eraseWS_cons_nws '*' _ (by decide), eraseWS_cons_ws ' ' _ (by decide),
              eraseWS_append, eraseWS_cons_ws ' ' _ (by decide),
              eraseWS_cons_nws '*' _ (by decide)]
          · have hcb : (c == '*') = false := by simpa using hc
            rw [if_neg (by simp [hcb])] at h
            simp only [Option.some.injEq] at h
            subst h
            rfl

theorem mapMOpt_serial (pieces : List (List Char)) (vs : List Variable)
    (h : mapMOpt (fun p => parsePiece (pyStripL p)) pieces = some vs) :
    eraseWS (joinWith (", ".data) (vs.map (fun p => p.data_type.data ++ ' ' :: p.name.data)))
      = eraseWS (joinWith [','] pieces) := by
  induction pieces generalizing vs with
  | nil =>
    simp only [mapMOpt, Option.some.injEq] at h
    subst h
    rfl
  | cons p ps ih =>
    simp only [mapMOpt] at h
    cases hp : parsePiece (pyStripL p) with
    | none => rw [hp] at h; simp at h
    | some v =>
      rw [hp] at h
      cases hrest : mapMOpt (fun p => parsePiece (pyStripL p)) ps with
      | none => rw [hrest] at h; simp at h
      | some vs2 =>
        rw [hrest] at h
        simp only [Option.some.injEq] at h
        subst h
        have hv : eraseWS (v.data_type.data ++ ' ' :: v.name.data) = eraseWS p := by
          rw [parsePiece_serial _ _ hp, eraseWS_pyStripL]
        cases ps with
        | nil =>
          simp only [mapMOpt, Option.some.injEq] at hrest
          subst hrest
          simpa [joinWith] using hv
        | cons p2 ps2 =>
          have hlen := mapMOpt_length _ _ _ hrest
          cases vs2 with
          | nil => simp at hlen
          | cons w ws =>
            have ihs := ih (w :: ws) hrest
            rw [List.map_cons, List.map_cons, joinWith_two, joinWith_two,
              eraseWS_append, eraseWS_append, hv, eraseWS_append, eraseWS_append]
            rw [List.map_cons] at ihs
            rw [ihs]
            rfl

/-- C7: for every non-empty parameter-list string that
`extract_function_parameters` parses successfully, re-serializing the parsed
parameters as `type name`, comma-joined in order (exactly the serialization
`get_function_contents` uses), reproduces the input up to whitespace
normalization, i.e. after discarding all whitespace characters. -/
theorem param_list_roundtrip (P : String) (ps : List Variable) (hne : P ≠ "")
    (h : extract_function_parameters P = some ps) :
    eraseWS (param_str_of ps) = eraseWS P.data := by
  have hd : P.data ≠ [] := string_ne_nil_data P hne
  unfold extract_function_parameters extract_function_parameters_core at h
  rw [if_neg (by simpa using hd)] at h
  calc eraseWS (param_str_of ps)
      = eraseWS (joinWith [','] (pySplitChar ',' P.data)) := mapMOpt_serial _ _ h
    _ = eraseWS P.data := by rw [join_pySplitChar]

/-- Witness for C7: the parameter list `"int a, char *b"` parses, and its
re-serialization `"int a, char* b"` agrees with it once whitespace is
discarded. -/
theorem param_list_roundtrip_witness :
    extract_function_parameters "int a, char *b" =
        some [⟨"int", "a", none⟩, ⟨"char*", "b", none⟩] ∧
      eraseWS (param_str_of [⟨"int", "a", none⟩, ⟨"char*", "b", none⟩]) =
        eraseWS "int a, char *b".data :=
  ⟨by decide, param_list_roundtrip "int a, char *b" _ (by decide) (by decide)⟩

/-- C9: parsing the literal empty string as a parameter list yields the empty
sequence of parameters, never a failure, while a non-empty malformed string
(here a piece with no type/name split) is the distinct fatal outcome `none`. -/
theorem empty_param_list_ok :
    extract_function_parameters "" = some [] ∧ extract_function_parameters "int" = none := by
  constructor <;> decide

/-- C6: a non-empty parameter-list string containing a piece with no internal
space separator (the separator `str.split(' ')` uses, so the piece cannot be
split into type and name) makes the whole call fail with `none`: the
`ValueError` propagates and no partial parameter sequence is returned. -/
theorem malformed_piece_is_fatal (P : String) (hne : P ≠ "")
    (h : ∃ p ∈ pySplitChar ',' P.data, ∀ c ∈ pyStripL p, ¬ c = ' ') :
    extract_function_parameters P = none := by
  obtain ⟨p, hmem, hc⟩ := h
  have hp : parsePiece (pyStripL p) = none := by
    unfold parsePiece
    rw [pySplitChar_no_sep ' ' _ hc]
  have hd : P.data ≠ [] := string_ne_nil_data P hne
  unfold extract_function_parameters extract_function_parameters_core
  rw [if_neg (by simpa using hd)]
  exact mapMOpt_none_of_mem _ _ _ hmem hp

/-- Witness for C6: `"int a, intb"` has the malformed piece `"intb"` and the
whole parse is the fatal `none`, not a partial sequence. -/
theorem malformed_piece_is_fatal_witness :
    extract_function_parameters "int a, intb" = none :=
  malformed_piece_is_fatal "int a, intb" (by decide)
    ⟨" intb".data, by decide, by decide⟩

/-- C5 counterexample: the spec's last-whitespace-boundary split would parse
the piece `"unsigned long x"` into one parameter with the multi-token type
`"unsigned long"`, but `param.split(' ')` unpacked into exactly two names
raises `ValueError` on the three space-separated tokens, so the call fails. -/
theorem multiword_type_piece_fails :
    extract_function_parameters "unsigned long x" = none ∧
      extract_function_parameters "unsigned long x" ≠
        some [⟨"unsigned long", "x", none⟩] := by
  constructor <;> decide

/-- C5 (amended): `extract_function_parameters` splits each trimmed piece at
single-space boundaries and requires exactly two tokens: a piece of the form
`<type> <name>` with exactly one space parses into one parameter (with the
pointer-sigil migration applied to the name), while a piece whose type
consists of several whitespace-separated tokens is a fatal failure (see the
counterexample). -/
theorem single_space_piece_parses (t n : List Char) (ht : t ≠ []) (hn : n ≠ [])
    (htc : ∀ c ∈ t, isPyWS c = false ∧ ¬ c = ',')
    (hnc : ∀ c ∈ n, isPyWS c = false ∧ ¬ c = ',') :
    extract_function_parameters ⟨t ++ ' ' :: n⟩ = some [mkPieceVar t n] := by
  have hnospace_t : ∀ c ∈ t, ¬ c = ' ' := by
    intro c hc he
    subst he
    exact absurd (htc ' ' hc).1 (by decide)
  have hnospace_n : ∀ c ∈ n, ¬ c = ' ' := by
    intro c hc he
    subst he
    exact absurd (hnc ' ' hc).1 (by decide)
  have hnocomma : ∀ c ∈ t ++ ' ' :: n, ¬ c = ',' := by
    intro c hcm
    rcases List.mem_append.mp hcm with hct | hcn
    · exact (htc c hct).2
    · rcases List.mem_cons.mp hcn with rfl | hcn2
      · decide
      · exact (hnc c hcn2).2
  have hstrip : pyStripL (t ++ ' ' :: n) = t ++ ' ' :: n := by
    have h1 : dropWS (t ++ ' ' :: n) = t ++ ' ' :: n := by
      cases t with
      | nil => exact absurd rfl ht
      | cons c cs =>
        have hcws := (htc c (by simp)).1
        simp [dropWS, List.dropWhile_cons, hcws]
    have h2 : dropWS ((t ++ ' ' :: n).reverse) = (t ++ ' ' :: n).reverse := by
      cases hnr : n.reverse with
      | nil => exact absurd (by simpa using hnr) hn
      | cons d ds =>
        have hd : d ∈ n := by
          have hdr : d ∈ n.reverse := by rw [hnr]; simp
          simpa using hdr
        have hrw : (t ++ ' ' :: n).reverse = d :: (ds ++ ' ' :: t.reverse) := by
          rw [List.reverse_append, List.reverse_cons, hnr]
          simp
        rw [hrw]
        simp [dropWS, List.dropWhile_cons, (hnc d hd).1]
    unfold pyStripL
    rw [show (dropWS (t ++ ' ' :: n)).reverse.dropWhile isPyWS
        = dropWS ((dropWS (t ++ ' ' :: n)).reverse) from rfl, h1, h2]
    simp
  have hsplit1 : pySplitChar ',' (t ++ ' ' :: n) = [t ++ ' ' :: n] :=
    pySplitChar_no_sep ',' _ hnocomma
  have hsplit2 : pySplitChar ' ' (t ++ ' ' :: n) = [t, n] := by
    rw [pySplitChar_sep_append ' ' t n hnospace_t, pySplitChar_no_sep ' ' n hnospace_n]
  have hie : (t ++ ' ' :: n).isEmpty = false := by
    cases t with
    | nil => exact absurd rfl ht
    | cons c cs => rfl
  show extract_function_parameters_core (t ++ ' ' :: n) = some [mkPieceVar t n]
  unfold extract_function_parameters_core
  rw [hie, hsplit1]
  simp only [Bool.false_eq_true, if_false, mapMOpt, hstrip]
  rw [parsePiece_eval _ t n hsplit2]
  cases n with
  | nil => exact absurd rfl hn
  | cons c cs =>
    simp only [parseTwo, mkPieceVar, List.headD]
    by_cases hc : c = '*'
    · subst hc
      simp
    · have hcb : (c == '*') = false := by simpa using hc
      simp [hcb]

/-- Witness for C5's amended rule: `"char *b"` parses into the single
parameter `char* b`. -/
theorem single_space_piece_parses_witness :
    extract_function_parameters "char *b" = some [⟨"char*", "b", none⟩] := by
  have h := single_space_piece_parses "char".data "*b".data (by decide) (by decide)
    (by decide) (by decide)
  have e1 : (⟨"char".data ++ ' ' :: "*b".data⟩ : String) = "char *b" := by decide
  have e2 : mkPieceVar "char".data "*b".data = ⟨"char*", "b", none⟩ := by decide
  rw [e1, e2] at h
  exact h

/-! ## Helper lemmas about the body extractor -/

theorem countBraces_shift (b : Int) (l : List Char) : countBraces b l = b + countBraces 0 l := by
  induction l generalizing b with
  | nil => simp [countBraces]
  | cons c cs ih =>
    have h1 : countBraces b (c :: cs)
        = countBraces (if c == '\x7b' then b + 1 else if c == '\x7d' then b - 1 else b) cs := rfl
    have h2 : countBraces 0 (c :: cs)
        = countBraces (if c == '\x7b' then (0 : Int) + 1 else if c == '\x7d' then (0 : Int) - 1 else 0) cs := rfl
    rw [h1, h2,
      ih (if c == '\x7b' then b + 1 else if c == '\x7d' then b - 1 else b),
      ih (if c == '\x7b' then (0 : Int) + 1 else if c == '\x7d' then (0 : Int) - 1 else 0)]
    split_ifs <;> omega

theorem braceSum_cons (l : String) (ls : List String) :
    braceSum (l :: ls) = braceDelta l + braceSum ls := rfl

theorem countBraces_line (b : Int) (l : String) : countBraces b l.data = b + braceDelta l := by
  rw [countBraces_shift]
  rfl

theorem gfcGo_found_persist (pat : String → Bool) (lines : List String) (st : GfcState)
    (h : st.found = true) : (gfcGo pat lines st).found = true := by
  induction lines generalizing st with
  | nil => simpa [gfcGo] using h
  | cons l ls ih =>
    simp only [gfcGo]
    split
    · split
      · simpa using h
      · exact ih _ (by simpa using h)
    · split
      · exact ih _ rfl
      · exact ih _ h

theorem gfcGo_skip (pat : String → Bool) (pre rest : List String) (st : GfcState)
    (hi : st.inside = false) (hpre : ∀ l ∈ pre, pat l = false) :
    gfcGo pat (pre ++ rest) st = gfcGo pat rest st := by
  induction pre with
  | nil => rfl
  | cons l ls ih =>
    have hl : pat l = false := hpre l (by simp)
    rw [List.cons_append]
    simp only [gfcGo, hi, hl, Bool.false_eq_true, if_false]
    exact ih (fun x hx => hpre x (by simp [hx]))

theorem gfcGo_start (pat : String → Bool) (h : String) (rest : List String) (st : GfcState)
    (hi : st.inside = false) (hm : pat h = true) :
    gfcGo pat (h :: rest) st = gfcGo pat rest ⟨true, true, 1, st.body ++ [pyStrip h]⟩ := by
  simp only [gfcGo, hi, hm, Bool.false_eq_true, if_false, if_true]

theorem gfcGo_no_match (pat : String → Bool) (lines : List String) (st : GfcState)
    (hi : st.inside = false) (h : ∀ l ∈ lines, pat l = false) :
    gfcGo pat lines st = st := by
  induction lines with
  | nil => rfl
  | cons l ls ih =>
    have hl : pat l = false := h l (by simp)
    simp only [gfcGo, hi, hl, Bool.false_eq_true, if_false]
    exact ih (fun x hx => h x (by simp [hx]))

theorem gfcGo_found_of_match (pat : String → Bool) (lines : List String) (st : GfcState)
    (hi : st.inside = false) (hex : ∃ l ∈ lines, pat l = true) :
    (gfcGo pat lines st).found = true := by
  induction lines with
  | nil =>
    obtain ⟨l, hl, _⟩ := hex
    cases hl
  | cons l ls ih =>
    cases hpl : pat l with
    | true =>
      rw [gfcGo_start pat l ls st hi hpl]
      exact gfcGo_found_persist pat ls _ rfl
    | false =>
      have hstep : gfcGo pat (l :: ls) st = gfcGo pat ls st := by
        simp only [gfcGo, hi, hpl, Bool.false_eq_true, if_false]
      rw [hstep]
      apply ih
      obtain ⟨x, hx, hpx⟩ := hex
      rcases List.mem_cons.mp hx with rfl | hmem
      · exact absurd hpx (by simp [hpl])
      · exact ⟨x, hmem, hpx⟩

theorem gfc_none_iff (content : String) (f : Function) :
    get_function_contents content f = none ↔
      ∀ l ∈ splitlines content, sigMatchLine f l = false := by
  unfold get_function_contents gfcResult
  constructor
  · intro h l hl
    cases hpl : sigMatchLine f l with
    | false => rfl
    | true =>
      have hf := gfcGo_found_of_match (sigMatchLine f) (splitlines content)
        ⟨false, false, 0, []⟩ rfl ⟨l, hl, hpl⟩
      rw [if_pos hf] at h
      exact absurd h (by simp)
  · intro h
    rw [gfcGo_no_match _ _ _ rfl h]
    rfl

theorem gfcGo_inside_all (pat : String → Bool) (rest : List String) (fnd : Bool) (b : Int)
    (body : List String)
    (h : ∀ n, n ≤ rest.length → ¬ b + braceSum (rest.take n) = 0) :
    gfcGo pat rest ⟨fnd, true, b, body⟩ =
      ⟨fnd, true, b + braceSum rest, body ++ rest.map pyStrip⟩ := by
  induction rest generalizing b body with
  | nil => simp [gfcGo, braceSum]
  | cons l ls ih =>
    have hb : ¬ b + braceDelta l = 0 := by
      have h1 := h 1 (by simp)
      rw [List.take_succ_cons, List.take_zero, braceSum_cons] at h1
      simpa [braceSum] using h1
    have hnext : ∀ n, n ≤ ls.length → ¬ (b + braceDelta l) + braceSum (ls.take n) = 0 := by
      intro n hn hc
      have h2 := h (n + 1) (by simpa using Nat.succ_le_succ hn)
      rw [List.take_succ_cons, braceSum_cons] at h2
      apply h2
      omega
    have hbeq : ((b + braceDelta l) == 0) = false := by simpa using hb
    have estep : gfcGo pat (l :: ls) ⟨fnd, true, b, body⟩
        = gfcGo pat ls ⟨fnd, true, b + braceDelta l, body ++ [pyStrip l]⟩ := by
      simp only [gfcGo, countBraces_line, hbeq, Bool.false_eq_true, if_false, if_true]
    rw [estep, ih (b + braceDelta l) (body ++ [pyStrip l]) hnext]
    rw [braceSum_cons, List.map_cons]
    congr 1
    · omega
    · simp

theorem gfcGo_inside_run (pat : String → Bool) (mid : List String) (t : String)
    (post : List String) (fnd : Bool) (b : Int) (body : List String)
    (hmid : ∀ n, n ≤ mid.length → ¬ b + braceSum (mid.take n) = 0)
    (hterm : b + braceSum mid + braceDelta t = 0) :
    gfcGo pat (mid ++ t :: post) ⟨fnd, true, b, body⟩ =
      ⟨fnd, false, 0, body ++ mid.map pyStrip ++ [pyStrip t]⟩ := by
  induction mid generalizing b body with
  | nil =>
    have ht : b + braceDelta t = 0 := by
      simpa [braceSum] using hterm
    rw [List.nil_append]
    simp [gfcGo, countBraces_line, ht]
  | cons l ls ih =>
    have hb : ¬ b + braceDelta l = 0 := by
      have h1 := hmid 1 (by simp)
      rw [List.take_succ_cons, List.take_zero, braceSum_cons] at h1
      simpa [braceSum] using h1
    have hnext : ∀ n, n ≤ ls.length → ¬ (b + braceDelta l) + braceSum (ls.take n) = 0 := by
      intro n hn hc
      have h2 := hmid (n + 1) (by simpa using Nat.succ_le_succ hn)
      rw [List.take_succ_cons, braceSum_cons] at h2
      apply h2
      omega
    have hterm2 : (b + braceDelta l) + braceSum ls + braceDelta t = 0 := by
      rw [braceSum_cons] at hterm
      omega
    have hbeq : ((b + braceDelta l) == 0) = false := by simpa using hb
    have estep : gfcGo pat ((l :: ls) ++ t :: post) ⟨fnd, true, b, body⟩
        = gfcGo pat (ls ++ t :: post) ⟨fnd, true, b + braceDelta l, body ++ [pyStrip l]⟩ := by
      rw [List.cons_append]
      simp only [gfcGo, countBraces_line, hbeq, Bool.false_eq_true, if_false, if_true]
    rw [estep, ih (b + braceDelta l) (body ++ [pyStrip l]) hnext hterm2]
    rw [List.map_cons]
    congr 1
    simp

/-! ## The header pattern accepts the canonical serialization -/

theorem stripPrefixL_append (xs r : List Char) : stripPrefixL xs (xs ++ r) = some r := by
  induction xs with
  | nil => rfl
  | cons c cs ih => simp [stripPrefixL, ih]

theorem wsTakes_self (l : List Char) : l ∈ wsTakes l := by
  cases l <;> simp [wsTakes]

theorem wsTakes_mem_of_ws (w r : List Char) (h : ∀ c ∈ w, isPyWS c = true) :
    r ∈ wsTakes (w ++ r) := by
  induction w with
  | nil => simpa using wsTakes_self r
  | cons c cs ih =>
    have hc : isPyWS c = true := h c (by simp)
    rw [List.cons_append]
    show r ∈ wsTakes (c :: (cs ++ r))
    simp only [wsTakes, hc, if_true]
    exact List.mem_cons_of_mem _ (ih (fun x hx => h x (by simp [hx])))

theorem canonicalHeader_data (f : Function) :
    (canonicalHeader f).data
      = f.return_type.data ++ (' ' :: (f.function_name.data
          ++ ('(' :: (param_str_of f.parameters ++ [')', ' ', '\x7b'])))) := by
  show f.return_type.data ++ ' ' :: f.function_name.data
      ++ '(' :: param_str_of f.parameters ++ [')', ' ', '\x7b'] = _
  simp

theorem hmType_eval (rt nm ps r : List Char) :
    hmType rt nm ps (rt ++ r) = hmAfterType nm ps r := by
  unfold hmType
  rw [stripPrefixL_append]

theorem hmAfterType_cons_space (nm ps : List Char) (X : List Char) :
    hmAfterType nm ps (' ' :: X) = (wsTakes X).any (hmName nm ps) := rfl

theorem hmName_eval (nm ps r : List Char) :
    hmName nm ps (nm ++ r) = hmAfterName ps r := by
  unfold hmName
  rw [stripPrefixL_append]

theorem hmParen_cons (ps l6 : List Char) : hmParen ps ('(' :: l6) = hmClose ps l6 := rfl

theorem hmClose_eval (ps r : List Char) :
    hmClose ps (ps ++ ')' :: r) = hmBrace r := by
  unfold hmClose
  rw [stripPrefixL_append]
  rfl

theorem canonical_matches (f : Function) (line : String)
    (h : pyLstrip line = canonicalHeader f) : sigMatchLine f line = true := by
  have hdata : line.data.dropWhile isPyWS = (canonicalHeader f).data := congrArg String.data h
  have hw : ∀ c ∈ line.data.takeWhile isPyWS, isPyWS c = true :=
    fun c hc => List.mem_takeWhile_imp hc
  have hsl : line.data.takeWhile isPyWS ++ line.data.dropWhile isPyWS = line.data := by
    simp
  have hsplitline : line.data = line.data.takeWhile isPyWS ++ (canonicalHeader f).data := by
    rw [← hdata, hsl]
  unfold sigMatchLine headerMatch
  apply List.any_eq_true.mpr
  refine ⟨(canonicalHeader f).data, ?_, ?_⟩
  · rw [hsplitline]
    exact wsTakes_mem_of_ws _ _ hw
  · rw [canonicalHeader_data, hmType_eval, hmAfterType_cons_space]
    apply List.any_eq_true.mpr
    refine ⟨f.function_name.data ++ ('(' :: (param_str_of f.parameters ++ [')', ' ', '\x7b'])),
      wsTakes_self _, ?_⟩
    rw [hmName_eval]
    unfold hmAfterName
    apply List.any_eq_true.mpr
    refine ⟨'(' :: (param_str_of f.parameters ++ [')', ' ', '\x7b']), wsTakes_self _, ?_⟩
    rw [hmParen_cons, hmClose_eval]
    decide

/-! ## Claims about the body extractor -/

/-- C4 counterexample: with target signature `int f()`, no line of the source
`"int  f() {…}"` (two spaces after `int`) equals the canonical serialization
`"int f() {"` even after stripping leading whitespace, yet
`get_function_contents` still finds and returns the body — the matching is
looser than verbatim equality, so the claimed if-and-only-if fails. -/
theorem non_verbatim_header_still_found :
    splitlines "int  f() \x7b\nint x = 5;\n\x7d" = ["int  f() \x7b", "int x = 5;", "\x7d"] ∧
      pyLstrip "int  f() \x7b" ≠ canonicalHeader fInt ∧
      pyLstrip "int x = 5;" ≠ canonicalHeader fInt ∧
      pyLstrip "\x7d" ≠ canonicalHeader fInt ∧
      get_function_contents "int  f() \x7b\nint x = 5;\n\x7d" fInt = some ["int x = 5;"] :=
  ⟨by decide, by decide, by decide, by decide, by decide⟩

/-- C4 (amended): the Body Extractor's line test is not verbatim equality
with the canonical serialization: `get_function_contents` returns `none`
exactly when no source line matches the compiled header pattern, and that
pattern accepts the canonical serialization `<return_type> <name>(<params>) {`
with leading whitespace, but also accepts variants with extra internal
whitespace (before the name, the parenthesis or the brace) and arbitrary
trailing text after the opening brace (see the counterexample). -/
theorem header_search_characterisation (content : String) (f : Function)
    (_hsafe : sigRegexSafe f = true) :
    (get_function_contents content f = none ↔
        ∀ l ∈ splitlines content, sigMatchLine f l = false) ∧
      (∀ line : String, pyLstrip line = canonicalHeader f → sigMatchLine f line = true) :=
  ⟨gfc_none_iff content f, fun line hl => canonical_matches f line hl⟩

/-- Witness for C4's amended characterisation: for `int f()` nothing in
`"void g() {…}"` matches, so the extractor reports not-found. -/
theorem header_search_characterisation_witness :
    get_function_contents "void g() \x7b\n\x7d" fInt = none :=
  (header_search_characterisation "void g() \x7b\n\x7d" fInt (by decide)).1.mpr (by decide)

/-- C1 counterexample: on the unterminated source
`"int f() {\nint x = 5;\nint y = 6;"` (no closing brace) the extractor does
not return the absent result: it returns the truncated partial body
`["int x = 5;"]` (the last collected line `"int y = 6;"` is even cut off by
the `[1:-1]` slice). -/
theorem unterminated_body_not_absent :
    get_function_contents "int f() \x7b\nint x = 5;\nint y = 6;" fInt = some ["int x = 5;"] ∧
      get_function_contents "int f() \x7b\nint x = 5;\nint y = 6;" fInt ≠ none := by
  constructor
  · decide
  · decide

/-- C1 (amended): when the header line is matched but the brace depth never
returns to zero before end of input, `get_function_contents` does not return
`none`: it returns the partial body collected up to end of input, trimmed,
with the last collected line dropped by the `[1:-1]` slice and empty lines
filtered — a truncated partial body.  (`none` is returned only when no line
matches the header pattern.) -/
theorem unterminated_body_returns_partial (content : String) (f : Function) (pre : List String)
    (hd : String) (rest : List String) (_hsafe : sigRegexSafe f = true)
    (hsplit : splitlines content = pre ++ hd :: rest)
    (hpre : ∀ l ∈ pre, sigMatchLine f l = false)
    (hh : sigMatchLine f hd = true)
    (hnz : ∀ n, n ≤ rest.length → ¬ (1 : Int) + braceSum (rest.take n) = 0) :
    get_function_contents content f =
      some (((rest.map pyStrip).dropLast).filter (fun s => s != "")) := by
  unfold get_function_contents
  rw [hsplit, gfcGo_skip _ _ _ _ rfl hpre, gfcGo_start _ _ _ _ rfl hh,
    gfcGo_inside_all _ rest true 1 _ hnz]
  unfold gfcResult
  simp

/-- Witness for C1's amended behaviour at a concrete unterminated source. -/
theorem unterminated_body_returns_partial_witness :
    get_function_contents "int g() \x7b\nint a = 1;\nint b = 2;" ⟨"int", "g", []⟩ =
      some ["int a = 1;"] := by
  have h := unterminated_body_returns_partial "int g() \x7b\nint a = 1;\nint b = 2;"
    ⟨"int", "g", []⟩ [] "int g() \x7b" ["int a = 1;", "int b = 2;"] (by decide) (by decide)
    (by decide) (by decide)
    (by intro n hn; simp at hn; interval_cases n <;> decide)
  have e : (((["int a = 1;", "int b = 2;"].map pyStrip).dropLast).filter (fun s => s != ""))
      = ["int a = 1;"] := by decide
  rw [e] at h
  exact h

/-- C8: when the header line is matched and the brace depth returns to zero
exactly at line `t`, `get_function_contents` returns the ordered body lines
strictly between the header line and the terminating line, each trimmed of
surrounding whitespace, with empty lines filtered out. -/
theorem body_extraction_exact (content : String) (f : Function) (pre : List String)
    (hd : String) (mid : List String) (t : String) (post : List String)
    (_hsafe : sigRegexSafe f = true)
    (hsplit : splitlines content = pre ++ hd :: (mid ++ t :: post))
    (hpre : ∀ l ∈ pre, sigMatchLine f l = false)
    (hh : sigMatchLine f hd = true)
    (hmid : ∀ n, n ≤ mid.length → ¬ (1 : Int) + braceSum (mid.take n) = 0)
    (hterm : (1 : Int) + braceSum mid + braceDelta t = 0) :
    get_function_contents content f = some ((mid.map pyStrip).filter (fun s => s != "")) := by
  unfold get_function_contents
  rw [hsplit, gfcGo_skip _ _ _ _ rfl hpre, gfcGo_start _ _ _ _ rfl hh,
    gfcGo_inside_run _ mid t post true 1 _ hmid hterm]
  unfold gfcResult
  simp

/-- Witness for C8: on the three-line source `int f() {\n  int x = 5;\n}\n`
the extractor returns exactly `["int x = 5;"]`. -/
theorem body_extraction_exact_witness :
    get_function_contents "int f() \x7b\n  int x = 5;\n\x7d\n" fInt = some ["int x = 5;"] := by
  have h := body_extraction_exact "int f() \x7b\n  int x = 5;\n\x7d\n" fInt []
    "int f() \x7b" ["  int x = 5;"] "\x7d" [] (by decide) (by decide) (by decide) (by decide)
    (by intro n hn; simp at hn; interval_cases n <;> decide) (by decide)
  have e : ((["  int x = 5;"].map pyStrip).filter (fun s => s != "")) = ["int x = 5;"] := by
    decide
  rw [e] at h
  exact h

/-! ## Claims about the declaration extractor and the signature matcher -/

/-- C2: on the body line `"int total = sum(5, 10);"` the initializer text
`"sum(5, 10)"` matches the call pattern, the code then executes
`match.group(2)` on a one-group regex, and the resulting uncaught
`IndexError` aborts the whole extraction (`none`): no Variable with a
function-call reference is ever produced. -/
theorem call_initializer_crashes :
    extract_function_variables ["int total = sum(5, 10);"] = none := by decide

/-- C3: `format_func_declar "int *make(void)"` does not succeed: the name
group of the pattern is `\w+`, which cannot start with `*`, and no whitespace
separates `*` from `make`, so `re.match` fails and the function returns
`None` (the inner `none`) — the pointer-sigil migration branch of lines
121-123 is unreachable and `return_type="int*"`, `name="make"` is never
produced. -/
theorem pointer_sigil_name_never_matches :
    format_func_declar "int *make(void)" = some none := by decide

theorem takeWhile_append_all {p : Char → Bool} (xs ys : List Char)
    (h : ∀ c ∈ xs, p c = true) : (xs ++ ys).takeWhile p = xs ++ ys.takeWhile p := by
  induction xs with
  | nil => rfl
  | cons c cs ih =>
    have hc := h c (by simp)
    simp [List.takeWhile_cons, hc, ih (fun x hx => h x (by simp [hx]))]

theorem dropWhile_append_all {p : Char → Bool} (xs ys : List Char)
    (h : ∀ c ∈ xs, p c = true) : (xs ++ ys).dropWhile p = ys.dropWhile p := by
  induction xs with
  | nil => rfl
  | cons c cs ih =>
    have hc := h c (by simp)
    simp [List.dropWhile_cons, hc, ih (fun x hx => h x (by simp [hx]))]

theorem declMatch_int_star (X : List Char) :
    declMatch ('i' :: 'n' :: 't' :: ' ' :: '*' :: X)
      = declAfterName ("int".data) ('*' :: X.takeWhile isWordStar) (X.dropWhile isWordStar) :=
  rfl

theorem declAfterName_star_semi (kw nm : List Char) :
    declAfterName kw ('*' :: nm) [';'] = some (kw, '*' :: nm, none) := rfl

theorem declAfterName_star_eq3 (kw nm : List Char) :
    declAfterName kw ('*' :: nm) (' ' :: '=' :: ' ' :: '3' :: [';'])
      = some (kw, '*' :: nm, some (" = 3".data)) := rfl

theorem extract_function_variables_decl (line : String) (t n : List Char)
    (h : declMatch line.data = some (t, n, none)) :
    extract_function_variables [line] = some [⟨⟨t⟩, ⟨n⟩, none⟩] := by
  unfold extract_function_variables
  rw [h]
  rfl

theorem extract_function_variables_declval (line : String) (t n g3 : List Char)
    (h : declMatch line.data = some (t, n, some g3))
    (hcall : callExprMatch (pyStripL (lastSplitEq g3)) = false) :
    extract_function_variables [line]
      = some [⟨⟨t⟩, ⟨n⟩, some ⟨pyStripL (lastSplitEq g3)⟩⟩] := by
  unfold extract_function_variables
  rw [h]
  simp only [hcall, Bool.false_eq_true, if_false]
  rfl

/-- C10: the Declaration Extractor applies no pointer-sigil migration.  For
every identifier `nm` of word characters, the body line `int *nm;` yields a
Variable with `name = "*nm"` (sigil kept on the name) and bare
`data_type = "int"`, and `int *nm = 3;` does the same with value `"3"` —
unlike the normalization `extract_function_parameters` and
`format_func_declar` apply. -/
theorem pointer_decl_keeps_sigil (nm : List Char) (_h1 : nm ≠ [])
    (h2 : ∀ c ∈ nm, isWordChar c = true) :
    extract_function_variables [⟨"int *".data ++ (nm ++ ";".data)⟩] =
        some [⟨"int", ⟨'*' :: nm⟩, none⟩] ∧
      extract_function_variables [⟨"int *".data ++ (nm ++ " = 3;".data)⟩] =
        some [⟨"int", ⟨'*' :: nm⟩, some "3"⟩] := by
  have hstar : ∀ c ∈ nm, isWordStar c = true := by
    intro c hc
    simp [isWordStar, h2 c hc]
  constructor
  · have htake : (nm ++ ";".data).takeWhile isWordStar = nm := by
      rw [takeWhile_append_all nm _ hstar,
        show (";".data).takeWhile isWordStar = [] from by decide]
      simp
    have hdrop : (nm ++ ";".data).dropWhile isWordStar = [';'] := by
      rw [dropWhile_append_all nm _ hstar]
      rfl
    have hdm : declMatch ("int *".data ++ (nm ++ ";".data))
        = some ("int".data, '*' :: nm, none) := by
      show declMatch ('i' :: 'n' :: 't' :: ' ' :: '*' :: (nm ++ ";".data)) = _
      rw [declMatch_int_star, htake, hdrop, declAfterName_star_semi]
    exact extract_function_variables_decl _ _ _ hdm
  · have htake : (nm ++ " = 3;".data).takeWhile isWordStar = nm := by
      rw [takeWhile_append_all nm _ hstar,
        show (" = 3;".data).takeWhile isWordStar = [] from by decide]
      simp
    have hdrop : (nm ++ " = 3;".data).dropWhile isWordStar
        = ' ' :: '=' :: ' ' :: '3' :: [';'] := by
      rw [dropWhile_append_all nm _ hstar]
      rfl
    have hdm : declMatch ("int *".data ++ (nm ++ " = 3;".data))
        = some ("int".data, '*' :: nm, some (" = 3".data)) := by
      show declMatch ('i' :: 'n' :: 't' :: ' ' :: '*' :: (nm ++ " = 3;".data)) = _
      rw [declMatch_int_star, htake, hdrop, declAfterName_star_eq3]
    have hval := extract_function_variables_declval
      ⟨"int *".data ++ (nm ++ " = 3;".data)⟩ "int".data ('*' :: nm) (" = 3".data) hdm
      (by decide)
    have e : (⟨pyStripL (lastSplitEq (" = 3".data))⟩ : String) = "3" := by decide
    rw [e] at hval
    exact hval

/-- Witness for C10 at the concrete lines `int *p;` and `int *p = 3;`. -/
theorem pointer_decl_keeps_sigil_witness :
    extract_function_variables ["int *p;"] = some [⟨"int", "*p", none⟩] ∧
      extract_function_variables ["int *p = 3;"] = some [⟨"int", "*p", some "3"⟩] := by
  have h := pointer_decl_keeps_sigil ['p'] (by decide) (by decide)
  have e1 : (⟨"int *".data ++ (['p'] ++ ";".data)⟩ : String) = "int *p;" := by decide
  have e2 : (⟨"int *".data ++ (['p'] ++ " = 3;".data)⟩ : String) = "int *p = 3;" := by decide
  have e3 : (⟨'*' :: ['p']⟩ : String) = "*p" := by decide
  rw [e1, e2, e3] at h
  exact h

end PaceC
